import Mathlib

/-!
Shallow embedding of the Barkr cross-posting relay core (`src/barkr/main.py`).

The core is the `Barkr` class: a list of connections, a dict
`message_queues : dict[str, list[Message]]` guarded by one lock, a reader
tick (`Barkr.read`) that fans newly read messages into every other
connection's queue, and a writer tick (`Barkr.write`) that flushes and
clears the queues.

Modelling conventions:
- A Python dict is an insertion-ordered association list `QDict`;
  `dictSet` overwrites an existing key in place and appends a fresh key at
  the end, `dictGetD` looks up a key (queues of known connections are
  always present, so the default `[]` is never hit on real states).
- `Message` is opaque to the core (the spec imposes no schema); we give it
  a numeric identity only so that equality of concrete states is decidable.
- `connection.read()` / `connection.write(...)` are external blocking
  calls that may raise.  Their per-tick behaviour is an oracle: a read
  oracle `String → Except Unit (List Message)` (`.error` = raise) and a
  write-failure oracle `String → Bool` (`true` = the write call raises).
- Exceptions in the tick body are not caught inside `Barkr.read` /
  `Barkr.write`; they propagate to the loop wrapper (`wrap_while_true`,
  outside the core), which catches them and runs the next tick.  A tick
  function therefore returns the state as it was at the moment of the
  raise, with the remaining connections unprocessed; running the next tick
  is modelled by applying a tick function again.
- The tick functions also return the list of external calls they made
  (`Event.readCall` / `Event.writeCall`), so "read()/write() is (not)
  invoked" claims are statements about that list.
-/

/-- Opaque message payload; the core never inspects it
(an id only makes concrete states decidably comparable). -/
structure Message where
  id : Nat
deriving DecidableEq, Repr

/-- `barkr.connections.ConnectionMode`: capability flags READ / WRITE. -/
inductive ConnectionMode
  | read
  | write
deriving DecidableEq, Repr

/-- The part of `barkr.connections.Connection` the core reads:
a name and a mode set (behaviour is supplied by oracles per tick). -/
structure Connection where
  name : String
  modes : List ConnectionMode
deriving DecidableEq, Repr

/-- `dict[str, list[Message]]` as an insertion-ordered association list. -/
abbrev QDict := List (String × List Message)

/-- The key view of the dict (`self.message_queues.keys()`). -/
def qKeys (q : QDict) : List String :=
  q.map Prod.fst

/-- `q[n]` (with default `[]`; on relay states every connection name is a key). -/
def dictGetD (q : QDict) (n : String) : List Message :=
  match q with
  | [] => []
  | p :: rest => if p.1 = n then p.2 else dictGetD rest n

/-- `q[n] = v`: overwrite in place when the key exists, else append it. -/
def dictSet (q : QDict) (n : String) (v : List Message) : QDict :=
  if n ∈ qKeys q then
    q.map (fun p => if p.1 = n then (n, v) else p)
  else
    q ++ [(n, v)]

/-- Occurrences of a key in the dict ("exactly one queue entry per name"). -/
def countKey (q : QDict) (n : String) : Nat :=
  (qKeys q).count n

/-- `{connection.name: [] for connection in connections}` (main.py line 42). -/
def mkQueues (conns : List Connection) : QDict :=
  conns.foldl (fun q c => dictSet q c.name []) []

/-- The relay state built by `Barkr.__init__`. -/
structure Barkr where
  connections : List Connection
  polling_interval : Int
  message_queues : QDict
deriving DecidableEq, Repr

/-- `Barkr.__init__` (main.py lines 22-46): raises `ValueError` on an empty
connection list, otherwise stores the connections, the interval and one
empty queue per connection name.  No other validation happens. -/
def Barkr.init (connections : List Connection) (polling_interval : Int) :
    Except String Barkr :=
  if connections = [] then
    Except.error "Must provide at least one connection!"
  else
    Except.ok
      { connections := connections
        polling_interval := polling_interval
        message_queues := mkQueues connections }

/-- External calls a tick makes, in order. -/
inductive Event
  | readCall (name : String)
  | writeCall (name : String) (msgs : List Message)
deriving DecidableEq, Repr

/-- The fan-out step of the reader tick (main.py lines 61-71): while holding
the lock, for every name in the dict other than the source, append the read
messages to that queue. -/
def fanOut (src : String) (msgs : List Message) (q : QDict) : QDict :=
  q.map (fun p => if p.1 = src then p else (p.1, p.2 ++ msgs))

/-- `Barkr.read` (main.py lines 48-71), one tick: for each connection in
order, skip it unless READ is in its modes; call `read()`; if it raises the
exception propagates (tick ends, rest unprocessed); if it returns a
non-empty list, fan the messages out to every other queue. -/
def readTick (oracle : String → Except Unit (List Message)) :
    List Connection → QDict → QDict × List Event
  | [], q => (q, [])
  | c :: rest, q =>
    if ConnectionMode.read ∈ c.modes then
      match oracle c.name with
      | Except.error _ => (q, [Event.readCall c.name])
      | Except.ok msgs =>
        let q1 := if msgs = [] then q else fanOut c.name msgs q
        let res := readTick oracle rest q1
        (res.1, Event.readCall c.name :: res.2)
    else
      readTick oracle rest q

/-- `Barkr.write` (main.py lines 73-94), one tick: for each connection in
order, if WRITE is in its modes, read its queue under the lock and, when
non-empty, call `write(messages)` (still under that lock); if the call
raises, the exception propagates: the later clear is skipped and the rest
of the tick is unprocessed.  Afterwards (in a second lock acquisition) the
connection's queue is set to `[]`; this clear runs for every connection,
WRITE-capable or not. -/
def writeTick (wf : String → Bool) :
    List Connection → QDict → QDict × List Event
  | [], q => (q, [])
  | c :: rest, q =>
    if ConnectionMode.write ∈ c.modes then
      let msgs := dictGetD q c.name
      if msgs = [] then
        writeTick wf rest (dictSet q c.name [])
      else if wf c.name then
        (q, [Event.writeCall c.name msgs])
      else
        let res := writeTick wf rest (dictSet q c.name [])
        (res.1, Event.writeCall c.name msgs :: res.2)
    else
      writeTick wf rest (dictSet q c.name [])

/-- The batches passed to `write()` calls on connection `n`, in order. -/
def writeCallsFor (n : String) : List Event → List (List Message)
  | [] => []
  | Event.writeCall m msgs :: rest =>
    if m = n then msgs :: writeCallsFor n rest else writeCallsFor n rest
  | Event.readCall _ :: rest => writeCallsFor n rest

/-!
Fine-grained interleaving model for the concurrency claims.

The reader thread and the writer thread share `message_queues` under one
lock.  The atomic (single-lock-acquisition) regions in the code are:
- reader fan-out: the whole `with self.message_queues_lock:` block of
  `Barkr.read` (lines 61-71) — one `LockStep.fan`;
- writer take+write: the first `with` block of a WRITE connection's slot
  (lines 81-90): read the queue and, when non-empty, call `write()` on it
  — one `LockStep.wtake`.  Note the queue is NOT changed here;
- writer clear: the second `with` block (lines 92-94): set the queue to
  `[]` — one `LockStep.wclear`.
A writer slot is hence TWO lock acquisitions, and any reader `fan` step may
interleave between them.  A slot whose `write()` raised contributes a
`wtake` with no matching `wclear` (the exception skips the clear).
-/

/-- One lock acquisition on the shared queue table. -/
inductive LockStep
  | fan (src : String) (msgs : List Message)
  | wtake (n : String)
  | wclear (n : String)
deriving DecidableEq, Repr

/-- Shared state plus the history of batches observed by `write()` calls. -/
structure TraceState where
  table : QDict
  observed : List (String × List Message)
deriving DecidableEq, Repr

/-- Effect of one lock acquisition. -/
def execStep (s : TraceState) : LockStep → TraceState
  | LockStep.fan src msgs => { s with table := fanOut src msgs s.table }
  | LockStep.wtake n =>
    let msgs := dictGetD s.table n
    if msgs = [] then s else { s with observed := s.observed ++ [(n, msgs)] }
  | LockStep.wclear n => { s with table := dictSet s.table n [] }

/-- Run an interleaving of lock acquisitions. -/
def execTrace (s : TraceState) : List LockStep → TraceState
  | [] => s
  | st :: rest => execTrace (execStep s st) rest

/-- All messages fanned out into `dest`'s queue over a trace. -/
def fannedTo (dest : String) : List LockStep → List Message
  | [] => []
  | LockStep.fan src msgs :: rest =>
    (if src = dest then [] else msgs) ++ fannedTo dest rest
  | LockStep.wtake _ :: rest => fannedTo dest rest
  | LockStep.wclear _ :: rest => fannedTo dest rest

/-- All messages observed by `write()` calls on `dest` so far. -/
def observedAt (dest : String) (s : TraceState) : List Message :=
  ((s.observed.filter (fun p => p.1 = dest)).map Prod.snd).flatten


/-! ### Dictionary lemmas -/

theorem qKeys_cons (p : String × List Message) (rest : QDict) :
    qKeys (p :: rest) = p.1 :: qKeys rest :=
  rfl

theorem qKeys_overwrite (q : QDict) (n : String) (v : List Message) :
    qKeys (q.map (fun p => if p.1 = n then (n, v) else p)) = qKeys q := by
  induction q with
  | nil => rfl
  | cons p rest ih =>
    by_cases hp : p.1 = n
    · simp [qKeys_cons, hp, ih]
    · simp [qKeys_cons, hp, ih]

theorem dictGetD_overwrite_ne (q : QDict) (n m : String) (v : List Message)
    (h : m ≠ n) :
    dictGetD (q.map (fun p => if p.1 = n then (n, v) else p)) m = dictGetD q m := by
  induction q with
  | nil => rfl
  | cons p rest ih =>
    by_cases hp : p.1 = n
    · have hpm : p.1 ≠ m := fun e => h (e.symm.trans hp)
      simp only [List.map_cons, if_pos hp, dictGetD, if_neg (fun e : n = m => h e.symm),
        if_neg hpm]
      exact ih
    · by_cases hm : p.1 = m
      · simp only [List.map_cons, if_neg hp, dictGetD, if_pos hm]
      · simp only [List.map_cons, if_neg hp, dictGetD, if_neg hm]
        exact ih

theorem dictGetD_overwrite_self (q : QDict) (n : String) (v : List Message)
    (h : n ∈ qKeys q) :
    dictGetD (q.map (fun p => if p.1 = n then (n, v) else p)) n = v := by
  induction q with
  | nil => exact absurd h (List.not_mem_nil n)
  | cons p rest ih =>
    by_cases hp : p.1 = n
    · simp [dictGetD, hp]
    · have h' : n ∈ qKeys rest := by
        rcases (List.mem_cons.mp (qKeys_cons p rest ▸ h)) with e | h'
        · exact absurd e.symm hp
        · exact h'
      simp only [List.map_cons, if_neg hp, dictGetD, if_neg hp, ih h']

theorem dictGetD_append_single_ne (q : QDict) (n m : String) (v : List Message)
    (h : m ≠ n) : dictGetD (q ++ [(n, v)]) m = dictGetD q m := by
  induction q with
  | nil => simp only [List.nil_append, dictGetD, if_neg (fun e : n = m => h e.symm)]
  | cons p rest ih =>
    by_cases hm : p.1 = m
    · simp only [List.cons_append, dictGetD, if_pos hm]
    · simp only [List.cons_append, dictGetD, if_neg hm]
      exact ih

theorem dictGetD_append_of_not_mem (q l : QDict) (n : String)
    (h : n ∉ qKeys q) : dictGetD (q ++ l) n = dictGetD l n := by
  induction q with
  | nil => rfl
  | cons p rest ih =>
    have hp : p.1 ≠ n := fun e => h (qKeys_cons p rest ▸ List.mem_cons.mpr (Or.inl e.symm))
    have hr : n ∉ qKeys rest :=
      fun hmem => h (qKeys_cons p rest ▸ List.mem_cons.mpr (Or.inr hmem))
    simp only [List.cons_append, dictGetD, if_neg hp]
    exact ih hr

theorem qKeys_dictSet_of_mem (q : QDict) (n : String) (v : List Message)
    (h : n ∈ qKeys q) : qKeys (dictSet q n v) = qKeys q := by
  unfold dictSet
  rw [if_pos h, qKeys_overwrite]

theorem qKeys_dictSet_of_not_mem (q : QDict) (n : String) (v : List Message)
    (h : n ∉ qKeys q) : qKeys (dictSet q n v) = qKeys q ++ [n] := by
  unfold dictSet
  rw [if_neg h]
  simp [qKeys]

theorem mem_qKeys_dictSet_of_mem (q : QDict) (n m : String) (v : List Message)
    (h : m ∈ qKeys q) : m ∈ qKeys (dictSet q n v) := by
  by_cases hn : n ∈ qKeys q
  · rw [qKeys_dictSet_of_mem q n v hn]; exact h
  · rw [qKeys_dictSet_of_not_mem q n v hn]; exact List.mem_append_left _ h

theorem mem_qKeys_dictSet_self (q : QDict) (n : String) (v : List Message) :
    n ∈ qKeys (dictSet q n v) := by
  by_cases hn : n ∈ qKeys q
  · rw [qKeys_dictSet_of_mem q n v hn]; exact hn
  · rw [qKeys_dictSet_of_not_mem q n v hn]; simp

theorem nodup_qKeys_dictSet (q : QDict) (n : String) (v : List Message)
    (h : (qKeys q).Nodup) : (qKeys (dictSet q n v)).Nodup := by
  by_cases hn : n ∈ qKeys q
  · rw [qKeys_dictSet_of_mem q n v hn]; exact h
  · rw [qKeys_dictSet_of_not_mem q n v hn]
    simpa [List.nodup_append] using ⟨h, hn⟩

theorem dictGetD_dictSet_self (q : QDict) (n : String) (v : List Message) :
    dictGetD (dictSet q n v) n = v := by
  unfold dictSet
  by_cases hn : n ∈ qKeys q
  · rw [if_pos hn]
    exact dictGetD_overwrite_self q n v hn
  · rw [if_neg hn, dictGetD_append_of_not_mem q _ n hn]
    simp [dictGetD]

theorem dictGetD_dictSet_ne (q : QDict) (n m : String) (v : List Message)
    (h : m ≠ n) : dictGetD (dictSet q n v) m = dictGetD q m := by
  unfold dictSet
  by_cases hn : n ∈ qKeys q
  · rw [if_pos hn]
    exact dictGetD_overwrite_ne q n m v h
  · rw [if_neg hn]
    exact dictGetD_append_single_ne q n m v h

/-! ### Fan-out lemmas -/

theorem qKeys_fanOut (src : String) (msgs : List Message) (q : QDict) :
    qKeys (fanOut src msgs q) = qKeys q := by
  induction q with
  | nil => rfl
  | cons p rest ih =>
    by_cases hp : p.1 = src
    · simp [fanOut, qKeys_cons, hp] at ih ⊢
      exact ih
    · simp [fanOut, qKeys_cons, hp] at ih ⊢
      exact ih

theorem dictGetD_fanOut_self (src : String) (msgs : List Message) (q : QDict) :
    dictGetD (fanOut src msgs q) src = dictGetD q src := by
  induction q with
  | nil => rfl
  | cons p rest ih =>
    by_cases hp : p.1 = src
    · simp only [fanOut, List.map_cons, if_pos hp, dictGetD, if_pos hp]
    · simp only [fanOut, List.map_cons, if_neg hp, dictGetD, if_neg hp]
      exact ih

theorem dictGetD_fanOut_ne (src : String) (msgs : List Message) (q : QDict)
    (n : String) (hne : n ≠ src) (hmem : n ∈ qKeys q) :
    dictGetD (fanOut src msgs q) n = dictGetD q n ++ msgs := by
  induction q with
  | nil => exact absurd hmem (List.not_mem_nil n)
  | cons p rest ih =>
    by_cases hp : p.1 = n
    · have hps : p.1 ≠ src := fun e => hne (hp.symm.trans e)
      simp only [fanOut, List.map_cons, if_neg hps, dictGetD, if_pos hp]
    · have h' : n ∈ qKeys rest := by
        rcases List.mem_cons.mp (qKeys_cons p rest ▸ hmem) with e | h'
        · exact absurd e.symm hp
        · exact h'
      by_cases hps : p.1 = src
      · simp only [fanOut, List.map_cons, if_pos hps, dictGetD, if_neg hp]
        exact ih h'
      · simp only [fanOut, List.map_cons, if_neg hps, dictGetD, if_neg hp]
        exact ih h'

/-! ### Construction lemmas -/

theorem mem_qKeys_foldl_of_mem (conns : List Connection) (q : QDict) (n : String)
    (h : n ∈ qKeys q) :
    n ∈ qKeys (conns.foldl (fun q c => dictSet q c.name []) q) := by
  induction conns generalizing q with
  | nil => exact h
  | cons c rest ih =>
    exact ih (dictSet q c.name []) (mem_qKeys_dictSet_of_mem q c.name n [] h)

theorem mem_qKeys_foldl_of_conn (conns : List Connection) (q : QDict)
    (c : Connection) (h : c ∈ conns) :
    c.name ∈ qKeys (conns.foldl (fun q c => dictSet q c.name []) q) := by
  induction conns generalizing q with
  | nil => exact absurd h (List.not_mem_nil c)
  | cons c0 rest ih =>
    rcases List.mem_cons.mp h with e | h'
    · subst e
      exact mem_qKeys_foldl_of_mem rest (dictSet q c.name []) c.name
        (mem_qKeys_dictSet_self q c.name [])
    · exact ih (dictSet q c0.name []) h'

theorem nodup_qKeys_foldl (conns : List Connection) (q : QDict)
    (h : (qKeys q).Nodup) :
    (qKeys (conns.foldl (fun q c => dictSet q c.name []) q)).Nodup := by
  induction conns generalizing q with
  | nil => exact h
  | cons c rest ih =>
    exact ih (dictSet q c.name []) (nodup_qKeys_dictSet q c.name [] h)

theorem dictGetD_foldl_empty (conns : List Connection) (q : QDict)
    (h : ∀ n, dictGetD q n = []) (n : String) :
    dictGetD (conns.foldl (fun q c => dictSet q c.name []) q) n = [] := by
  induction conns generalizing q with
  | nil => exact h n
  | cons c rest ih =>
    refine ih (dictSet q c.name []) (fun m => ?_) 
    by_cases hm : m = c.name
    · rw [hm, dictGetD_dictSet_self]
    · rw [dictGetD_dictSet_ne q c.name m [] hm]
      exact h m

theorem mem_qKeys_mkQueues (conns : List Connection) (c : Connection)
    (h : c ∈ conns) : c.name ∈ qKeys (mkQueues conns) :=
  mem_qKeys_foldl_of_conn conns [] c h

theorem nodup_qKeys_mkQueues (conns : List Connection) :
    (qKeys (mkQueues conns)).Nodup :=
  nodup_qKeys_foldl conns [] List.nodup_nil

theorem dictGetD_mkQueues (conns : List Connection) (n : String) :
    dictGetD (mkQueues conns) n = [] :=
  dictGetD_foldl_empty conns [] (fun _ => rfl) n

theorem countKey_mkQueues (conns : List Connection) (c : Connection)
    (h : c ∈ conns) : countKey (mkQueues conns) c.name = 1 :=
  List.count_eq_one_of_mem (nodup_qKeys_mkQueues conns) (mem_qKeys_mkQueues conns c h)

/-! ### Tick lemmas -/

theorem writeTick_of_absent_queue (wf : String → Bool) (conns : List Connection)
    (q : QDict) (n : String) (h : dictGetD q n = []) :
    writeCallsFor n (writeTick wf conns q).2 = [] ∧
    dictGetD (writeTick wf conns q).1 n = [] := by
  induction conns generalizing q with
  | nil => exact ⟨rfl, h⟩
  | cons c rest ih =>
    have hset : dictGetD (dictSet q c.name []) n = [] := by
      by_cases he : n = c.name
      · rw [he, dictGetD_dictSet_self]
      · rw [dictGetD_dictSet_ne q c.name n [] he]
        exact h
    by_cases hw : ConnectionMode.write ∈ c.modes
    · by_cases hm : dictGetD q c.name = []
      · simp only [writeTick, if_pos hw, hm, if_pos rfl]
        exact ih (dictSet q c.name []) hset
      · have hcn : c.name ≠ n := fun e => hm (e ▸ h)
        by_cases hf : wf c.name = true
        · simp only [writeTick, if_pos hw, if_neg hm, if_pos hf, writeCallsFor, if_neg hcn]
          exact ⟨by simp, h⟩
        · have hf' : wf c.name = false := by simpa using hf
          simp only [writeTick, if_pos hw, if_neg hm, hf', Bool.false_eq_true, if_false,
            writeCallsFor, if_neg hcn]
          exact ih (dictSet q c.name []) hset
    · simp only [writeTick, if_neg hw]
      exact ih (dictSet q c.name []) hset

theorem qKeys_readTick (oracle : String → Except Unit (List Message))
    (conns : List Connection) (q : QDict) :
    qKeys (readTick oracle conns q).1 = qKeys q := by
  induction conns generalizing q with
  | nil => rfl
  | cons c rest ih =>
    by_cases hr : ConnectionMode.read ∈ c.modes
    · rcases horacle : oracle c.name with e | msgs
      · simp only [readTick, if_pos hr, horacle]
      · by_cases hm : msgs = []
        · simp only [readTick, if_pos hr, horacle, hm, if_pos rfl]
          exact ih q
        · simp only [readTick, if_neg hm, if_pos hr, horacle, if_false]
          rw [ih (fanOut c.name msgs q), qKeys_fanOut]
    · simp only [readTick, if_neg hr]
      exact ih q

theorem qKeys_writeTick (wf : String → Bool) (conns : List Connection) (q : QDict)
    (hmem : ∀ c ∈ conns, c.name ∈ qKeys q) :
    qKeys (writeTick wf conns q).1 = qKeys q := by
  induction conns generalizing q with
  | nil => rfl
  | cons c rest ih =>
    have hc : c.name ∈ qKeys q := hmem c (List.mem_cons_self c rest)
    have hkeys : qKeys (dictSet q c.name []) = qKeys q :=
      qKeys_dictSet_of_mem q c.name [] hc
    have hmem' : ∀ c' ∈ rest, c'.name ∈ qKeys (dictSet q c.name []) := by
      intro c' hc'
      rw [hkeys]
      exact hmem c' (List.mem_cons_of_mem c hc')
    by_cases hw : ConnectionMode.write ∈ c.modes
    · by_cases hm : dictGetD q c.name = []
      · simp only [writeTick, if_pos hw, hm, if_pos rfl, if_true]
        rw [ih (dictSet q c.name []) hmem', hkeys]
      · by_cases hf : wf c.name = true
        · simp only [writeTick, if_pos hw, if_neg hm, if_pos hf]
        · have hf' : wf c.name = false := by simpa using hf
          simp only [writeTick, if_pos hw, if_neg hm, hf', Bool.false_eq_true, if_false]
          rw [ih (dictSet q c.name []) hmem', hkeys]
    · simp only [writeTick, if_neg hw]
      rw [ih (dictSet q c.name []) hmem', hkeys]

/-! ### Claim theorems -/

/-- C1 counterexample: connection "B" has WRITE and queue `[⟨0⟩]`; its
`write()` raises.  The claim says the queue is empty immediately after the
slot and the batch is never redelivered; in fact the clear is skipped, the
queue still holds the batch, and the next tick delivers the same batch to
`write()` again. -/
theorem c1_counterexample :
    dictGetD (writeTick (fun _ => true) [⟨"B", [ConnectionMode.write]⟩]
      [("B", [⟨0⟩])]).1 "B" = [⟨0⟩] ∧
    (writeTick (fun _ => false) [⟨"B", [ConnectionMode.write]⟩]
      (writeTick (fun _ => true) [⟨"B", [ConnectionMode.write]⟩]
        [("B", [⟨0⟩])]).1).2 = [Event.writeCall "B" [⟨0⟩]] := by
  decide

/-- C1 (amended): for a WRITE connection whose queue is non-empty at the
start of its slot, the tick calls `write()` exactly once with the full
queue contents; if `write()` returns normally the queue is empty after the
slot, but if it raises the clear is skipped: the state is returned
unchanged (batch retained, remaining connections unprocessed) and a
subsequent tick whose `write()` succeeds delivers the very same batch
again before clearing. -/
theorem c1_write_failure_keeps_batch (wf wf2 : String → Bool) (c : Connection)
    (rest : List Connection) (q : QDict)
    (hw : ConnectionMode.write ∈ c.modes)
    (hm : dictGetD q c.name ≠ [])
    (hf : wf c.name = true)
    (hf2 : wf2 c.name = false) :
    writeTick wf (c :: rest) q = (q, [Event.writeCall c.name (dictGetD q c.name)]) ∧
    writeTick wf2 [c] q =
      (dictSet q c.name [], [Event.writeCall c.name (dictGetD q c.name)]) := by
  constructor
  · simp only [writeTick, if_pos hw, if_neg hm, if_pos hf]
  · simp only [writeTick, if_pos hw, if_neg hm, hf2, Bool.false_eq_true, if_false]

/-- C1 witness: the amended statement at the concrete failing connection. -/
theorem c1_witness :
    writeTick (fun _ => true) [⟨"B", [ConnectionMode.write]⟩] [("B", [⟨0⟩])]
      = ([("B", [⟨0⟩])], [Event.writeCall "B" [⟨0⟩]]) ∧
    writeTick (fun _ => false) [⟨"B", [ConnectionMode.write]⟩] [("B", [⟨0⟩])]
      = (dictSet [("B", [⟨0⟩])] "B" [], [Event.writeCall "B" [⟨0⟩]]) :=
  c1_write_failure_keeps_batch (fun _ => true) (fun _ => false)
    ⟨"B", [ConnectionMode.write]⟩ [] [("B", [⟨0⟩])]
    (by decide) (by decide) rfl rfl

/-- C2 counterexample: connections "A" (READ) and "B" (WRITE).  The trace
is one reader tick (`fan "A" [⟨0⟩]`), then the writer tick's three lock
acquisitions (`wclear "A"`, `wtake "B"`, `wclear "B"`) with a second
reader tick's fan-out (`fan "A" [⟨1⟩]`) interleaved between "B"'s take
step and its clear step — possible because they are separate lock
acquisitions in the code.  Two messages are fanned out to "B" but only
one is ever observed by a `write()` call; the other is wiped from the
table by the clear, so it is lost. -/
theorem c2_counterexample :
    observedAt "B" (execTrace ⟨[("A", []), ("B", [])], []⟩
        [LockStep.fan "A" [⟨0⟩], LockStep.wclear "A", LockStep.wtake "B",
          LockStep.fan "A" [⟨1⟩], LockStep.wclear "B"]) = [⟨0⟩] ∧
    fannedTo "B"
        [LockStep.fan "A" [⟨0⟩], LockStep.wclear "A", LockStep.wtake "B",
          LockStep.fan "A" [⟨1⟩], LockStep.wclear "B"] = [⟨0⟩, ⟨1⟩] ∧
    (execTrace ⟨[("A", []), ("B", [])], []⟩
        [LockStep.fan "A" [⟨0⟩], LockStep.wclear "A", LockStep.wtake "B",
          LockStep.fan "A" [⟨1⟩], LockStep.wclear "B"]).table
      = [("A", []), ("B", [])] := by
  decide

/-- C2 (amended): taking a queue's contents and resetting it are two
separate lock acquisitions, so the claimed atomicity fails (see the
counterexample); but when the two acquisitions are adjacent — no fan-out
interleaves between them — the pair behaves like an atomic take-and-reset:
the `write()` call observes exactly the queue's prior contents (nothing
when it was empty) and the queue is empty afterwards. -/
theorem c2_adjacent_take_and_reset_atomic (s : TraceState) (n : String) :
    execTrace s [LockStep.wtake n, LockStep.wclear n] =
      { table := dictSet s.table n []
        observed := s.observed ++
          (if dictGetD s.table n = [] then [] else [(n, dictGetD s.table n)]) } := by
  by_cases hm : dictGetD s.table n = []
  · simp [execTrace, execStep, hm]
  · simp [execTrace, execStep, hm]

/-- C3: within a reader tick, when connection `c` has READ and its `read()`
returns a non-empty `msgs`, the tick performs the fan-out step and
continues; the fan-out appends exactly `msgs`, in order, at the tail of
every other connection's queue and leaves `c`'s own queue unchanged. -/
theorem c3_fan_out_appends_to_others (oracle : String → Except Unit (List Message))
    (c : Connection) (rest : List Connection) (q : QDict) (msgs : List Message)
    (hr : ConnectionMode.read ∈ c.modes)
    (ho : oracle c.name = Except.ok msgs)
    (hm : msgs ≠ []) :
    readTick oracle (c :: rest) q =
      ((readTick oracle rest (fanOut c.name msgs q)).1,
        Event.readCall c.name :: (readTick oracle rest (fanOut c.name msgs q)).2) ∧
    (∀ n, n ≠ c.name → n ∈ qKeys q →
      dictGetD (fanOut c.name msgs q) n = dictGetD q n ++ msgs) ∧
    dictGetD (fanOut c.name msgs q) c.name = dictGetD q c.name := by
  refine ⟨?_, fun n hne hmem => dictGetD_fanOut_ne c.name msgs q n hne hmem,
    dictGetD_fanOut_self c.name msgs q⟩
  simp only [readTick, if_pos hr, ho, if_neg hm, if_false]

/-- C3 witness: fanning one message from "A" appends it to "B"'s queue and
leaves "A"'s queue as it was. -/
theorem c3_witness :
    dictGetD (fanOut "A" [⟨0⟩] [("A", [⟨5⟩]), ("B", [⟨7⟩])]) "B"
        = dictGetD [("A", [⟨5⟩]), ("B", [⟨7⟩])] "B" ++ [⟨0⟩] ∧
    dictGetD (fanOut "A" [⟨0⟩] [("A", [⟨5⟩]), ("B", [⟨7⟩])]) "A"
        = dictGetD [("A", [⟨5⟩]), ("B", [⟨7⟩])] "A" :=
  have h := c3_fan_out_appends_to_others (fun _ => Except.ok [⟨0⟩])
    ⟨"A", [ConnectionMode.read]⟩ [] [("A", [⟨5⟩]), ("B", [⟨7⟩])] [⟨0⟩]
    (by decide) rfl (by decide)
  ⟨h.2.1 "B" (by decide) (by decide), h.2.2⟩

/-- C4 counterexample: "A" (READ) raises in `read()`; "B" (READ) would
return a message.  The claim says "B" is still processed in the same tick;
in fact the tick ends at "A": "B"'s `read()` is never called this tick and
no queue changes. -/
theorem c4_counterexample :
    readTick (fun n => if n = "A" then Except.error () else Except.ok [⟨0⟩])
        [⟨"A", [ConnectionMode.read]⟩, ⟨"B", [ConnectionMode.read]⟩]
        [("A", []), ("B", [])]
      = ([("A", []), ("B", [])], [Event.readCall "A"]) ∧
    Event.readCall "B" ∉
      (readTick (fun n => if n = "A" then Except.error () else Except.ok [⟨0⟩])
        [⟨"A", [ConnectionMode.read]⟩, ⟨"B", [ConnectionMode.read]⟩]
        [("A", []), ("B", [])]).2 := by
  decide

/-- C4 (amended): when a READ connection's `read()` raises, the exception
propagates out of the tick body (it is only caught at the loop-wrapper
level): the tick returns immediately with the queues unchanged and no
further connection of the same tick processed; they are only processed
again on the next tick. -/
theorem c4_read_failure_aborts_tick (oracle : String → Except Unit (List Message))
    (c : Connection) (rest : List Connection) (q : QDict)
    (hr : ConnectionMode.read ∈ c.modes)
    (ho : oracle c.name = Except.error ()) :
    readTick oracle (c :: rest) q = (q, [Event.readCall c.name]) := by
  simp only [readTick, if_pos hr, ho]

/-- C4 witness: the amended statement at the concrete raising connection. -/
theorem c4_witness :
    readTick (fun n => if n = "A" then Except.error () else Except.ok [⟨0⟩])
        [⟨"A", [ConnectionMode.read]⟩, ⟨"C", [ConnectionMode.read]⟩]
        [("A", [⟨3⟩]), ("C", [])]
      = ([("A", [⟨3⟩]), ("C", [])], [Event.readCall "A"]) :=
  c4_read_failure_aborts_tick (fun n => if n = "A" then Except.error () else Except.ok [⟨0⟩])
    ⟨"A", [ConnectionMode.read]⟩ [⟨"C", [ConnectionMode.read]⟩]
    [("A", [⟨3⟩]), ("C", [])] (by decide) rfl

/-- C5: for a WRITE connection whose slot in a writer tick starts at state
`q`, the `write()` calls on it during the tick are exactly one call with
the full queue contents in stored order when the queue is non-empty, and
no call at all when it is empty. -/
theorem c5_write_called_once_with_full_queue (wf : String → Bool) (c : Connection)
    (rest : List Connection) (q : QDict)
    (hw : ConnectionMode.write ∈ c.modes) :
    writeCallsFor c.name (writeTick wf (c :: rest) q).2 =
      (if dictGetD q c.name = [] then [] else [dictGetD q c.name]) := by
  by_cases hm : dictGetD q c.name = []
  · rw [if_pos hm]
    simp only [writeTick, if_pos hw, hm, if_pos rfl, if_true]
    exact (writeTick_of_absent_queue wf rest (dictSet q c.name []) c.name
      (dictGetD_dictSet_self q c.name [])).1
  · rw [if_neg hm]
    by_cases hf : wf c.name = true
    · simp only [writeTick, if_pos hw, if_neg hm, if_pos hf, writeCallsFor, if_pos rfl,
        if_true]
    · have hf' : wf c.name = false := by simpa using hf
      simp only [writeTick, if_pos hw, if_neg hm, hf', Bool.false_eq_true, if_false,
        writeCallsFor, if_pos rfl, if_true]
      rw [(writeTick_of_absent_queue wf rest (dictSet q c.name []) c.name
        (dictGetD_dictSet_self q c.name [])).1]

/-- C5 witness: one call with the full two-message batch on a non-empty
queue, and no call on an empty queue. -/
theorem c5_witness :
    writeCallsFor "B" (writeTick (fun _ => false) [⟨"B", [ConnectionMode.write]⟩]
        [("B", [⟨0⟩, ⟨1⟩])]).2 = [[⟨0⟩, ⟨1⟩]] ∧
    writeCallsFor "B" (writeTick (fun _ => false) [⟨"B", [ConnectionMode.write]⟩]
        [("B", [])]).2 = [] :=
  ⟨c5_write_called_once_with_full_queue (fun _ => false)
      ⟨"B", [ConnectionMode.write]⟩ [] [("B", [⟨0⟩, ⟨1⟩])] (by decide),
    c5_write_called_once_with_full_queue (fun _ => false)
      ⟨"B", [ConnectionMode.write]⟩ [] [("B", [])] (by decide)⟩

theorem readTick_events_are_conn_reads (oracle : String → Except Unit (List Message))
    (conns : List Connection) (q : QDict) :
    ∀ e ∈ (readTick oracle conns q).2, ∃ c ∈ conns, e = Event.readCall c.name := by
  induction conns generalizing q with
  | nil => intro e he; exact absurd he (List.not_mem_nil e)
  | cons c rest ih =>
    intro e he
    by_cases hr : ConnectionMode.read ∈ c.modes
    · rcases ho : oracle c.name with u | msgs
      · simp only [readTick, if_pos hr, ho, List.mem_singleton] at he
        exact ⟨c, List.mem_cons_self c rest, he⟩
      · simp only [readTick, if_pos hr, ho, List.mem_cons] at he
        rcases he with e0 | he'
        · exact ⟨c, List.mem_cons_self c rest, e0⟩
        · rcases ih _ e he' with ⟨c', hc', he''⟩
          exact ⟨c', List.mem_cons_of_mem c hc', he''⟩
    · simp only [readTick, if_neg hr] at he
      rcases ih q e he with ⟨c', hc', he''⟩
      exact ⟨c', List.mem_cons_of_mem c hc', he''⟩

/-- C6: constructing the relay with an empty connection collection fails
with the configuration error for every polling interval and produces no
relay state; constructing with a non-empty collection succeeds and its
queue table holds exactly one entry per connection name, each an empty
queue. -/
theorem c6_construction :
    (∀ p : Int, Barkr.init [] p = Except.error "Must provide at least one connection!") ∧
    (∀ (conns : List Connection) (p : Int), conns ≠ [] →
      Barkr.init conns p = Except.ok
        { connections := conns, polling_interval := p,
          message_queues := mkQueues conns } ∧
      ∀ c ∈ conns, countKey (mkQueues conns) c.name = 1 ∧
        dictGetD (mkQueues conns) c.name = []) := by
  constructor
  · intro p
    rfl
  · intro conns p hne
    exact ⟨by simp [Barkr.init, hne],
      fun c hc => ⟨countKey_mkQueues conns c hc, dictGetD_mkQueues conns c.name⟩⟩

/-- C6 witness: the failure case at interval 10 and the success case for a
singleton collection. -/
theorem c6_witness :
    Barkr.init [] 10 = Except.error "Must provide at least one connection!" ∧
    Barkr.init [⟨"A", [ConnectionMode.read]⟩] 10 = Except.ok
      { connections := [⟨"A", [ConnectionMode.read]⟩], polling_interval := 10,
        message_queues := mkQueues [⟨"A", [ConnectionMode.read]⟩] } ∧
    countKey (mkQueues [⟨"A", [ConnectionMode.read]⟩]) "A" = 1 ∧
    dictGetD (mkQueues [⟨"A", [ConnectionMode.read]⟩]) "A" = [] :=
  have h := c6_construction
  have h2 := h.2 [⟨"A", [ConnectionMode.read]⟩] 10 (by decide)
  have h3 := h2.2 ⟨"A", [ConnectionMode.read]⟩ (List.mem_singleton.mpr rfl)
  ⟨h.1 10, h2.1, h3.1, h3.2⟩

/-- C7 counterexample: "B" (WRITE, raising `write()`, non-empty queue)
precedes "C" (no WRITE, non-empty queue).  The claim says every writer
tick resets "C"'s queue; in this tick the exception at "B" ends the tick
before "C"'s slot, so "C"'s queue is not cleared. -/
theorem c7_counterexample :
    dictGetD (writeTick (fun _ => true)
        [⟨"B", [ConnectionMode.write]⟩, ⟨"C", []⟩]
        [("B", [⟨0⟩]), ("C", [⟨1⟩])]).1 "C" = [⟨1⟩] := by
  decide

/-- C7 (amended): for a connection without WRITE, a writer tick that
reaches its slot clears its queue (and processing continues on the
cleared table), and `write()` is never called on it: its slot emits no
write event and the remainder of the tick makes no `write()` call for its
name, leaving its queue empty at the end of the tick. -/
theorem c7_slot_clears_queue_without_write (wf : String → Bool) (c : Connection)
    (rest : List Connection) (q : QDict)
    (hw : ConnectionMode.write ∉ c.modes) :
    writeTick wf (c :: rest) q = writeTick wf rest (dictSet q c.name []) ∧
    dictGetD (dictSet q c.name []) c.name = [] ∧
    writeCallsFor c.name (writeTick wf (c :: rest) q).2 = [] ∧
    dictGetD (writeTick wf (c :: rest) q).1 c.name = [] := by
  have hstep : writeTick wf (c :: rest) q = writeTick wf rest (dictSet q c.name []) := by
    simp only [writeTick, if_neg hw]
  have habs := writeTick_of_absent_queue wf rest (dictSet q c.name []) c.name
    (dictGetD_dictSet_self q c.name [])
  exact ⟨hstep, dictGetD_dictSet_self q c.name [],
    by rw [hstep]; exact habs.1, by rw [hstep]; exact habs.2⟩

/-- C7 witness: the amended statement for a read-only connection "C" with
a non-empty queue, followed by a WRITE connection "B". -/
theorem c7_witness :
    writeTick (fun _ => false) [⟨"C", [ConnectionMode.read]⟩, ⟨"B", [ConnectionMode.write]⟩]
        [("C", [⟨1⟩]), ("B", [])]
      = writeTick (fun _ => false) [⟨"B", [ConnectionMode.write]⟩]
          (dictSet [("C", [⟨1⟩]), ("B", [])] "C" []) ∧
    dictGetD (dictSet [("C", [⟨1⟩]), ("B", [])] "C" []) "C" = [] ∧
    writeCallsFor "C" (writeTick (fun _ => false)
        [⟨"C", [ConnectionMode.read]⟩, ⟨"B", [ConnectionMode.write]⟩]
        [("C", [⟨1⟩]), ("B", [])]).2 = [] ∧
    dictGetD (writeTick (fun _ => false)
        [⟨"C", [ConnectionMode.read]⟩, ⟨"B", [ConnectionMode.write]⟩]
        [("C", [⟨1⟩]), ("B", [])]).1 "C" = [] :=
  c7_slot_clears_queue_without_write (fun _ => false) ⟨"C", [ConnectionMode.read]⟩
    [⟨"B", [ConnectionMode.write]⟩] [("C", [⟨1⟩]), ("B", [])] (by decide)

/-- C8: a connection without READ is transparent to the reader tick: the
tick computes exactly what it would compute with that connection removed
from the collection (so it contributes no messages to any queue), and,
when no other connection shares its name, its `read()` is never invoked
during the tick. -/
theorem c8_non_read_connection_never_read (oracle : String → Except Unit (List Message))
    (pre post : List Connection) (c : Connection) (q : QDict)
    (hr : ConnectionMode.read ∉ c.modes) :
    readTick oracle (pre ++ c :: post) q = readTick oracle (pre ++ post) q ∧
    ((∀ c' ∈ pre ++ post, c'.name ≠ c.name) →
      Event.readCall c.name ∉ (readTick oracle (pre ++ c :: post) q).2) := by
  have hmain : ∀ q, readTick oracle (pre ++ c :: post) q = readTick oracle (pre ++ post) q := by
    induction pre with
    | nil =>
      intro q
      simp only [List.nil_append, readTick, if_neg hr]
    | cons c0 pre' ih =>
      intro q
      by_cases hr0 : ConnectionMode.read ∈ c0.modes
      · rcases ho : oracle c0.name with u | msgs
        · simp only [List.cons_append, readTick, if_pos hr0, ho]
        · simp only [List.cons_append, readTick, if_pos hr0, ho, List.append_eq]
          rw [ih]
      · simp only [List.cons_append, readTick, if_neg hr0]
        exact ih q
  refine ⟨hmain q, fun hname hmem => ?_⟩
  rw [hmain q] at hmem
  rcases readTick_events_are_conn_reads oracle (pre ++ post) q _ hmem with ⟨c', hc', he⟩
  exact hname c' hc' (by injection he with h; exact h.symm)

/-- C8 witness: "W" (WRITE only) sits between two READ connections; the
tick equals the tick without "W" and `read()` is never called on "W",
although its oracle would return a message. -/
theorem c8_witness :
    readTick (fun _ => Except.ok [⟨0⟩])
        [⟨"A", [ConnectionMode.read]⟩, ⟨"W", [ConnectionMode.write]⟩,
          ⟨"C", [ConnectionMode.read]⟩]
        [("A", []), ("W", []), ("C", [])]
      = readTick (fun _ => Except.ok [⟨0⟩])
          [⟨"A", [ConnectionMode.read]⟩, ⟨"C", [ConnectionMode.read]⟩]
          [("A", []), ("W", []), ("C", [])] ∧
    Event.readCall "W" ∉ (readTick (fun _ => Except.ok [⟨0⟩])
        [⟨"A", [ConnectionMode.read]⟩, ⟨"W", [ConnectionMode.write]⟩,
          ⟨"C", [ConnectionMode.read]⟩]
        [("A", []), ("W", []), ("C", [])]).2 :=
  have h := c8_non_read_connection_never_read (fun _ => Except.ok [⟨0⟩])
    [⟨"A", [ConnectionMode.read]⟩] [⟨"C", [ConnectionMode.read]⟩]
    ⟨"W", [ConnectionMode.write]⟩ [("A", []), ("W", []), ("C", [])] (by decide)
  ⟨h.1, h.2 (by decide)⟩

/-- C9: the key set of the queue table is exactly one entry per connection
name at construction, and the full (ordered) key list is invariant under
any reader tick and — whenever every connection name is a key, as
established at construction — any writer tick. -/
theorem c9_queue_key_set_invariant :
    (∀ (conns : List Connection) (c : Connection), c ∈ conns →
      countKey (mkQueues conns) c.name = 1) ∧
    (∀ (oracle : String → Except Unit (List Message)) (conns : List Connection)
      (q : QDict), qKeys (readTick oracle conns q).1 = qKeys q) ∧
    (∀ (wf : String → Bool) (conns : List Connection) (q : QDict),
      (∀ c ∈ conns, c.name ∈ qKeys q) → qKeys (writeTick wf conns q).1 = qKeys q) :=
  ⟨countKey_mkQueues, qKeys_readTick, qKeys_writeTick⟩

/-- C9 witness: key-list preservation on a concrete two-connection relay,
through one reader tick and one writer tick. -/
theorem c9_witness :
    countKey (mkQueues [⟨"A", [ConnectionMode.read]⟩, ⟨"B", [ConnectionMode.write]⟩]) "A"
      = 1 ∧
    qKeys (readTick (fun _ => Except.ok [⟨0⟩])
        [⟨"A", [ConnectionMode.read]⟩, ⟨"B", [ConnectionMode.write]⟩]
        [("A", []), ("B", [])]).1 = qKeys [("A", []), ("B", [])] ∧
    qKeys (writeTick (fun _ => false)
        [⟨"A", [ConnectionMode.read]⟩, ⟨"B", [ConnectionMode.write]⟩]
        [("A", []), ("B", [⟨0⟩])]).1 = qKeys [("A", []), ("B", [⟨0⟩])] :=
  ⟨c9_queue_key_set_invariant.1 [⟨"A", [ConnectionMode.read]⟩, ⟨"B", [ConnectionMode.write]⟩]
      ⟨"A", [ConnectionMode.read]⟩ (by decide),
    c9_queue_key_set_invariant.2.1 (fun _ => Except.ok [⟨0⟩])
      [⟨"A", [ConnectionMode.read]⟩, ⟨"B", [ConnectionMode.write]⟩] [("A", []), ("B", [])],
    c9_queue_key_set_invariant.2.2 (fun _ => false)
      [⟨"A", [ConnectionMode.read]⟩, ⟨"B", [ConnectionMode.write]⟩]
      [("A", []), ("B", [⟨0⟩])] (by decide)⟩

/-- C10: construction validates nothing but non-emptiness of the
connection collection: for every non-empty collection and every integer
polling interval — zero and negative included — `Barkr.init` succeeds and
stores the interval as given. -/
theorem c10_no_interval_validation (conns : List Connection) (p : Int)
    (h : conns ≠ []) :
    Barkr.init conns p = Except.ok
      { connections := conns, polling_interval := p,
        message_queues := mkQueues conns } := by
  simp [Barkr.init, h]

/-- C10 witness: construction succeeds with a zero and with a negative
polling interval. -/
theorem c10_witness :
    Barkr.init [⟨"A", []⟩] 0 = Except.ok
      { connections := [⟨"A", []⟩], polling_interval := 0,
        message_queues := mkQueues [⟨"A", []⟩] } ∧
    Barkr.init [⟨"A", []⟩] (-5) = Except.ok
      { connections := [⟨"A", []⟩], polling_interval := -5,
        message_queues := mkQueues [⟨"A", []⟩] } :=
  ⟨c10_no_interval_validation [⟨"A", []⟩] 0 (by decide),
    c10_no_interval_validation [⟨"A", []⟩] (-5) (by decide)⟩
